import Mathlib

/-!
Shallow embedding of the McMocknald order-kiosk core: the two-tier priority
queue (`src/pkg/queue/priority_queue.go`), the relevant domain records
(`src/internal/domain`), the in-memory repositories
(`src/internal/infrastructure/memory`) and the cook service
(`src/internal/service/cook_service.go`).

Go machine integers are modelled as `Int` (the queue's cached `size` counter
is incremented and decremented without bounds checks, and one verified
property concerns it going negative).  Go `nil` pointers are modelled with
`Option`.  The wall-clock fields `CreatedAt`/`ModifiedAt` are omitted: they
are write-only timestamps never read by any code under verification;
`DeletedAt` is kept (as an abstract `Option Nat` instant) because
`User.IsDeleted` branches on it.  Mutexes and goroutines are dropped: every
verified property is about a single operation executed without interleaving.
-/

namespace Kiosk

/-- Customer / user role, a plain string in the Go source (`domain.RoleType`). -/
abbrev RoleType := String

/-- Constant `domain.RoleRegularCustomer`. -/
def RoleRegularCustomer : RoleType := "Regular Customer"

/-- Constant `domain.RoleVIPCustomer`. -/
def RoleVIPCustomer : RoleType := "VIP Customer"

/-- Constant `domain.RoleCook`. -/
def RoleCook : RoleType := "Cook"

/-- Order status, a plain string in the Go source (`domain.OrderStatus`). -/
abbrev OrderStatus := String

/-- Constant `domain.OrderStatusPending`. -/
def OrderStatusPending : OrderStatus := "PENDING"

/-- Constant `domain.OrderStatusServing`. -/
def OrderStatusServing : OrderStatus := "SERVING"

/-- Constant `domain.OrderStatusComplete`. -/
def OrderStatusComplete : OrderStatus := "COMPLETE"

/-- `domain.Order` (src/internal/domain, order entity).  The enrichment-only
fields `CustomerName`, `CookName`, `Foods` and the timestamps are omitted:
no code under verification reads them. -/
structure Order where
  ID : Int
  Status : OrderStatus
  AssignedCookUser : Option Int
  OrderedBy : Int
  CustomerRole : RoleType
  deriving Repr, DecidableEq

/-- `domain.User` (src/internal/domain/user.go).  `DeletedAt *time.Time` is
modelled as `Option Nat` (an abstract instant); only its presence is ever
read, via `IsDeleted`. -/
structure User where
  ID : Int
  Name : String
  Role : RoleType
  DeletedAt : Option Nat
  deriving Repr, DecidableEq

/-- `User.IsCook` from src/internal/domain/user.go. -/
def User.IsCook (u : User) : Bool :=
  u.Role == RoleCook

/-- `User.IsDeleted` from src/internal/domain/user.go. -/
def User.IsDeleted (u : User) : Bool :=
  u.DeletedAt.isSome

/-- The two sentinel errors of src/pkg/queue (`ErrNilOrder`, `ErrEmptyQueue`). -/
inductive QueueError where
  | nilOrder
  | emptyQueue
  deriving Repr, DecidableEq

/-- `queue.PriorityQueue` (src/pkg/queue/priority_queue.go lines 42-47):
two slices of orders plus a cached total `size` counter.  The mutex is
dropped (single-operation semantics); slice capacity is not part of the
model, so the compaction steps of `Dequeue` (lines 102-106 and 113-117),
which copy a slice without changing its elements, have no counterpart. -/
structure PriorityQueue where
  vipOrders : List Order
  regularOrders : List Order
  size : Int
  deriving Repr, DecidableEq

/-- `queue.NewPriorityQueue` (lines 51-57): empty tiers, size 0. -/
def NewPriorityQueue : PriorityQueue :=
  { vipOrders := [], regularOrders := [], size := 0 }

/-- `PriorityQueue.Enqueue` (lines 62-79).  The Go argument is a pointer;
`none` models a nil pointer, rejected with `ErrNilOrder`.  A non-nil order
is appended to the tail of the tier chosen by `CustomerRole`. -/
def PriorityQueue.Enqueue (pq : PriorityQueue) (order : Option Order) :
    Option QueueError × PriorityQueue :=
  match order with
  | none => (some .nilOrder, pq)
  | some o =>
    if o.CustomerRole == RoleVIPCustomer then
      (none, { pq with vipOrders := pq.vipOrders ++ [o], size := pq.size + 1 })
    else
      (none, { pq with regularOrders := pq.regularOrders ++ [o], size := pq.size + 1 })

/-- `PriorityQueue.Dequeue` (lines 85-122).  Returns the Go pair
`(*domain.Order, error)` (each component optional) together with the new
queue state.  Faithful to the source: the empty check reads only the cached
`size` counter (line 89), and `size` is decremented on every path that
passes that check (line 120) — including the path where both tier slices
are empty, which returns a nil order with a nil error. -/
def PriorityQueue.Dequeue (pq : PriorityQueue) :
    (Option Order × Option QueueError) × PriorityQueue :=
  if pq.size == 0 then
    ((none, some .emptyQueue), pq)
  else
    match pq.vipOrders with
    | o :: rest => ((some o, none), { pq with vipOrders := rest, size := pq.size - 1 })
    | [] =>
      match pq.regularOrders with
      | o :: rest => ((some o, none), { pq with regularOrders := rest, size := pq.size - 1 })
      | [] => ((none, none), { pq with size := pq.size - 1 })

/-- `PriorityQueue.EnqueueAtFront` (lines 128-147): same nil validation as
`Enqueue`, but the order is prepended to the head of its tier. -/
def PriorityQueue.EnqueueAtFront (pq : PriorityQueue) (order : Option Order) :
    Option QueueError × PriorityQueue :=
  match order with
  | none => (some .nilOrder, pq)
  | some o =>
    if o.CustomerRole == RoleVIPCustomer then
      (none, { pq with vipOrders := o :: pq.vipOrders, size := pq.size + 1 })
    else
      (none, { pq with regularOrders := o :: pq.regularOrders, size := pq.size + 1 })

/-- `PriorityQueue.Size` (lines 151-155): the cached counter. -/
def PriorityQueue.Size (pq : PriorityQueue) : Int :=
  pq.size

/-- `PriorityQueue.IsEmpty` (lines 159-163). -/
def PriorityQueue.IsEmpty (pq : PriorityQueue) : Bool :=
  pq.size == 0

/-- `PriorityQueue.Peek` (lines 167-185): same head selection as `Dequeue`
but without mutation, and with a final fall-through to `ErrEmptyQueue`
when both tiers are empty yet `size` is non-zero. -/
def PriorityQueue.Peek (pq : PriorityQueue) : Option Order × Option QueueError :=
  if pq.size == 0 then
    (none, some .emptyQueue)
  else
    match pq.vipOrders with
    | o :: _ => (some o, none)
    | [] =>
      match pq.regularOrders with
      | o :: _ => (some o, none)
      | [] => (none, some .emptyQueue)

/-- Invariant I2 of the spec: the cached size counter equals the sum of the
two tier lengths. -/
def PriorityQueue.sizeInv (pq : PriorityQueue) : Prop :=
  pq.size = pq.vipOrders.length + pq.regularOrders.length

instance (pq : PriorityQueue) : Decidable pq.sizeInv := by
  unfold PriorityQueue.sizeInv; infer_instance

/-- Queue states reachable from `NewPriorityQueue` by the queue's mutating
operations (`Peek`, `Size`, `IsEmpty` do not mutate). -/
inductive Reachable : PriorityQueue → Prop where
  | new : Reachable NewPriorityQueue
  | enqueue (pq : PriorityQueue) (o : Option Order) :
      Reachable pq → Reachable (pq.Enqueue o).2
  | enqueueAtFront (pq : PriorityQueue) (o : Option Order) :
      Reachable pq → Reachable (pq.EnqueueAtFront o).2
  | dequeue (pq : PriorityQueue) :
      Reachable pq → Reachable (pq.Dequeue).2

/-! Helper lemmas about the queue operations. -/

theorem enqueue_preserves_sizeInv (pq : PriorityQueue) (o : Option Order)
    (h : pq.sizeInv) : (pq.Enqueue o).2.sizeInv := by
  cases o with
  | none => simpa [PriorityQueue.Enqueue] using h
  | some x =>
    unfold PriorityQueue.sizeInv at *
    by_cases hr : x.CustomerRole == RoleVIPCustomer <;>
      simp [PriorityQueue.Enqueue, hr] <;> omega

theorem enqueueAtFront_preserves_sizeInv (pq : PriorityQueue) (o : Option Order)
    (h : pq.sizeInv) : (pq.EnqueueAtFront o).2.sizeInv := by
  cases o with
  | none => simpa [PriorityQueue.EnqueueAtFront] using h
  | some x =>
    unfold PriorityQueue.sizeInv at *
    by_cases hr : x.CustomerRole == RoleVIPCustomer <;>
      simp [PriorityQueue.EnqueueAtFront, hr] <;> omega

theorem dequeue_preserves_sizeInv (pq : PriorityQueue)
    (h : pq.sizeInv) : (pq.Dequeue).2.sizeInv := by
  unfold PriorityQueue.sizeInv at *
  by_cases hz : pq.size = 0
  · simp [PriorityQueue.Dequeue, hz]; omega
  · cases hv : pq.vipOrders with
    | cons o rest => simp [PriorityQueue.Dequeue, hz, hv] at h ⊢; omega
    | nil =>
      cases hr : pq.regularOrders with
      | cons o rest => simp [PriorityQueue.Dequeue, hz, hv, hr] at h ⊢; omega
      | nil => exact absurd (by rw [h, hv, hr]; simp) hz

theorem reachable_sizeInv {pq : PriorityQueue} (h : Reachable pq) : pq.sizeInv := by
  induction h with
  | new => simp [NewPriorityQueue, PriorityQueue.sizeInv]
  | enqueue pq o _ ih => exact enqueue_preserves_sizeInv pq o ih
  | enqueueAtFront pq o _ ih => exact enqueueAtFront_preserves_sizeInv pq o ih
  | dequeue pq _ ih => exact dequeue_preserves_sizeInv pq ih

/-! Sample concrete data used by witnesses. -/

/-- A sample VIP order. -/
def vipSample : Order :=
  { ID := 1, Status := OrderStatusPending, AssignedCookUser := none,
    OrderedBy := 10, CustomerRole := RoleVIPCustomer }

/-- A sample regular order. -/
def regSample : Order :=
  { ID := 2, Status := OrderStatusPending, AssignedCookUser := none,
    OrderedBy := 11, CustomerRole := RoleRegularCustomer }

/-- A reachable queue holding one VIP and one regular order. -/
def qVipReg : PriorityQueue :=
  ((NewPriorityQueue.Enqueue (some vipSample)).2.Enqueue (some regSample)).2

theorem qVipReg_reachable : Reachable qVipReg :=
  Reachable.enqueue _ _ (Reachable.enqueue _ _ Reachable.new)

/-- C1: on every reachable queue state, `Dequeue` and `Peek` return the head
of the VIP tier when it is non-empty (never a standard-tier item), the head
of the standard tier when the VIP tier is empty, and the `ErrEmptyQueue`
error when both tiers are empty. -/
theorem dequeue_peek_tier_priority (pq : PriorityQueue) (h : Reachable pq) :
    (∀ o rest, pq.vipOrders = o :: rest →
      (pq.Dequeue).1 = (some o, none) ∧ pq.Peek = (some o, none)) ∧
    (pq.vipOrders = [] → ∀ o rest, pq.regularOrders = o :: rest →
      (pq.Dequeue).1 = (some o, none) ∧ pq.Peek = (some o, none)) ∧
    (pq.vipOrders = [] → pq.regularOrders = [] →
      (pq.Dequeue).1 = (none, some QueueError.emptyQueue) ∧
      pq.Peek = (none, some QueueError.emptyQueue)) := by
  have hinv := reachable_sizeInv h
  unfold PriorityQueue.sizeInv at hinv
  refine ⟨?_, ?_, ?_⟩
  · intro o rest hv
    have hz : ¬ pq.size = 0 := by rw [hinv, hv]; simp; omega
    simp [PriorityQueue.Dequeue, PriorityQueue.Peek, hv, hz]
  · intro hv o rest hr
    have hz : ¬ pq.size = 0 := by rw [hinv, hv, hr]; simp; omega
    simp [PriorityQueue.Dequeue, PriorityQueue.Peek, hv, hr, hz]
  · intro hv hr
    have hz : pq.size = 0 := by rw [hinv, hv, hr]; simp
    simp [PriorityQueue.Dequeue, PriorityQueue.Peek, hz]

/-- Witness for C1 at a concrete reachable queue: with one VIP and one
regular order enqueued, both `Dequeue` and `Peek` return the VIP order. -/
theorem dequeue_peek_tier_priority_witness :
    qVipReg.vipOrders = [vipSample] ∧
    (qVipReg.Dequeue).1 = (some vipSample, none) ∧
    qVipReg.Peek = (some vipSample, none) :=
  ⟨by decide,
   (dequeue_peek_tier_priority qVipReg qVipReg_reachable).1 vipSample [] (by decide)⟩

/-- C10: whenever the size-consistency invariant holds, `Dequeue` either
returns an order (with nil error) or fails with `ErrEmptyQueue` — it never
returns a nil order together with a nil error — and the size counter stays
non-negative after the call. -/
theorem dequeue_no_nil_nil_under_sizeInv (pq : PriorityQueue) (h : pq.sizeInv) :
    ((∃ o, (pq.Dequeue).1 = (some o, none)) ∨
      (pq.Dequeue).1 = (none, some QueueError.emptyQueue)) ∧
    0 ≤ (pq.Dequeue).2.size := by
  unfold PriorityQueue.sizeInv at h
  by_cases hz : pq.size = 0
  · simp [PriorityQueue.Dequeue, hz]
  · cases hv : pq.vipOrders with
    | cons o rest =>
      refine ⟨Or.inl ⟨o, by simp [PriorityQueue.Dequeue, hz, hv]⟩, ?_⟩
      simp [PriorityQueue.Dequeue, hz, hv]
      omega
    | nil =>
      cases hr : pq.regularOrders with
      | cons o rest =>
        refine ⟨Or.inl ⟨o, by simp [PriorityQueue.Dequeue, hz, hv, hr]⟩, ?_⟩
        simp [PriorityQueue.Dequeue, hz, hv, hr]
        omega
      | nil => exact absurd (by rw [h, hv, hr]; simp) hz

/-- Witness for C10 at the concrete reachable queue `qVipReg`. -/
theorem dequeue_no_nil_nil_under_sizeInv_witness :
    ((∃ o, (qVipReg.Dequeue).1 = (some o, none)) ∨
      (qVipReg.Dequeue).1 = (none, some QueueError.emptyQueue)) ∧
    0 ≤ (qVipReg.Dequeue).2.size :=
  dequeue_no_nil_nil_under_sizeInv qVipReg (by decide)

/-- C8: on every reachable queue state, `Enqueue` and `EnqueueAtFront`
reject a nil order with `ErrNilOrder` leaving the queue unchanged, and
`Dequeue` / `Peek` fail with `ErrEmptyQueue` — returning no order and
mutating nothing — exactly when both tiers are empty. -/
theorem nil_rejected_empty_error_iff (pq : PriorityQueue) (h : Reachable pq) :
    pq.Enqueue none = (some QueueError.nilOrder, pq) ∧
    pq.EnqueueAtFront none = (some QueueError.nilOrder, pq) ∧
    (pq.Dequeue = ((none, some QueueError.emptyQueue), pq) ↔
      pq.vipOrders = [] ∧ pq.regularOrders = []) ∧
    (pq.Peek = (none, some QueueError.emptyQueue) ↔
      pq.vipOrders = [] ∧ pq.regularOrders = []) := by
  have hinv := reachable_sizeInv h
  unfold PriorityQueue.sizeInv at hinv
  refine ⟨rfl, rfl, ?_, ?_⟩ <;>
  · cases hv : pq.vipOrders with
    | cons o rest =>
      have hz : ¬ pq.size = 0 := by rw [hinv, hv]; simp; omega
      simp [PriorityQueue.Dequeue, PriorityQueue.Peek, hz, hv]
    | nil =>
      cases hr : pq.regularOrders with
      | cons o rest =>
        have hz : ¬ pq.size = 0 := by rw [hinv, hv, hr]; simp; omega
        simp [PriorityQueue.Dequeue, PriorityQueue.Peek, hz, hv, hr]
      | nil =>
        have hz : pq.size = 0 := by rw [hinv, hv, hr]; simp
        have hpq : pq = NewPriorityQueue := by
          cases pq; simp_all [NewPriorityQueue]
        simp [hpq, NewPriorityQueue, PriorityQueue.Dequeue, PriorityQueue.Peek]

/-- Witness for C8 at the concrete reachable queue `qVipReg`. -/
theorem nil_rejected_empty_error_iff_witness :
    qVipReg.Enqueue none = (some QueueError.nilOrder, qVipReg) ∧
    qVipReg.EnqueueAtFront none = (some QueueError.nilOrder, qVipReg) ∧
    (qVipReg.Dequeue = ((none, some QueueError.emptyQueue), qVipReg) ↔
      qVipReg.vipOrders = [] ∧ qVipReg.regularOrders = []) ∧
    (qVipReg.Peek = (none, some QueueError.emptyQueue) ↔
      qVipReg.vipOrders = [] ∧ qVipReg.regularOrders = []) :=
  nil_rejected_empty_error_iff qVipReg qVipReg_reachable

/-- C9: both insertion operations succeed on every non-nil order — no
status validation, so orders whose status is already SERVING or COMPLETE
are accepted — and they place the order in the VIP tier exactly when its
`CustomerRole` equals the string "VIP Customer"; every other role value
(including the empty string) goes to the standard tier. -/
theorem enqueue_classifies_solely_by_role (pq : PriorityQueue) (o : Order) :
    ((pq.Enqueue (some o)).1 = none ∧ (pq.EnqueueAtFront (some o)).1 = none) ∧
    (((pq.Enqueue (some o)).2.vipOrders = pq.vipOrders ++ [o] ∧
      (pq.Enqueue (some o)).2.regularOrders = pq.regularOrders) ↔
      o.CustomerRole = RoleVIPCustomer) ∧
    (((pq.Enqueue (some o)).2.regularOrders = pq.regularOrders ++ [o] ∧
      (pq.Enqueue (some o)).2.vipOrders = pq.vipOrders) ↔
      ¬ o.CustomerRole = RoleVIPCustomer) ∧
    (((pq.EnqueueAtFront (some o)).2.vipOrders = o :: pq.vipOrders ∧
      (pq.EnqueueAtFront (some o)).2.regularOrders = pq.regularOrders) ↔
      o.CustomerRole = RoleVIPCustomer) ∧
    (((pq.EnqueueAtFront (some o)).2.regularOrders = o :: pq.regularOrders ∧
      (pq.EnqueueAtFront (some o)).2.vipOrders = pq.vipOrders) ↔
      ¬ o.CustomerRole = RoleVIPCustomer) := by
  by_cases hr : o.CustomerRole = RoleVIPCustomer
  · simp [PriorityQueue.Enqueue, PriorityQueue.EnqueueAtFront, hr]
  · simp [PriorityQueue.Enqueue, PriorityQueue.EnqueueAtFront, hr]

/-! Sequences of queue operations, for the FIFO and conservation claims. -/

/-- Apply `Enqueue` to each order of a list in turn (each wrapped as a
non-nil pointer), left to right. -/
def enqueueList (pq : PriorityQueue) (xs : List Order) : PriorityQueue :=
  xs.foldl (fun q o => (q.Enqueue (some o)).2) pq

/-- The tier sequence that order `o` belongs to in queue `pq`, following the
classification used by `Enqueue` and `EnqueueAtFront`. -/
def tierOf (pq : PriorityQueue) (o : Order) : List Order :=
  if o.CustomerRole == RoleVIPCustomer then pq.vipOrders else pq.regularOrders

/-- Two orders are routed to the same tier. -/
def sameTier (d z : Order) : Bool :=
  (z.CustomerRole == RoleVIPCustomer) == (d.CustomerRole == RoleVIPCustomer)

/-- Dequeue up to `n` orders, collecting the returned orders; stops early if
`Dequeue` returns no order. -/
def drainN : PriorityQueue → Nat → List Order
  | _, 0 => []
  | pq, n + 1 =>
    match pq.Dequeue with
    | ((some o, _), q2) => o :: drainN q2 n
    | ((none, _), _) => []

theorem ext_of_fields {p q : PriorityQueue} (h1 : p.vipOrders = q.vipOrders)
    (h2 : p.regularOrders = q.regularOrders) (h3 : p.size = q.size) : p = q := by
  cases p; cases q; simp_all

theorem enqueueList_fields (xs : List Order) (pq : PriorityQueue) :
    (enqueueList pq xs).vipOrders
        = pq.vipOrders ++ xs.filter (fun z => z.CustomerRole == RoleVIPCustomer) ∧
    (enqueueList pq xs).regularOrders
        = pq.regularOrders ++ xs.filter (fun z => !(z.CustomerRole == RoleVIPCustomer)) ∧
    (enqueueList pq xs).size = pq.size + xs.length := by
  induction xs generalizing pq with
  | nil => simp [enqueueList]
  | cons x rest ih =>
    have hstep : enqueueList pq (x :: rest) = enqueueList (pq.Enqueue (some x)).2 rest := by
      simp [enqueueList]
    rw [hstep]
    rcases ih (pq.Enqueue (some x)).2 with ⟨ihv, ihr, ihs⟩
    by_cases hx : x.CustomerRole == RoleVIPCustomer <;>
      simp [PriorityQueue.Enqueue, hx, List.filter_cons] at ihv ihr ihs ⊢ <;>
      simp [ihv, ihr, ihs] <;> omega

theorem drainN_vip (xs : List Order) :
    drainN { vipOrders := xs, regularOrders := [], size := (xs.length : Int) }
      xs.length = xs := by
  induction xs with
  | nil => simp [drainN]
  | cons x rest ih =>
    show drainN _ (rest.length + 1) = x :: rest
    unfold drainN
    have hcond : (((x :: rest).length : Int) == 0) = false := by
      simp
      omega
    simp only [PriorityQueue.Dequeue, hcond, Bool.false_eq_true, if_false]
    have hsz : ((x :: rest).length : Int) - 1 = (rest.length : Int) := by
      simp
    simp only [hsz]
    simpa using ih

theorem drainN_reg (xs : List Order) :
    drainN { vipOrders := [], regularOrders := xs, size := (xs.length : Int) }
      xs.length = xs := by
  induction xs with
  | nil => simp [drainN]
  | cons x rest ih =>
    show drainN _ (rest.length + 1) = x :: rest
    unfold drainN
    have hcond : (((x :: rest).length : Int) == 0) = false := by
      simp
      omega
    simp only [PriorityQueue.Dequeue, hcond, Bool.false_eq_true, if_false]
    have hsz : ((x :: rest).length : Int) - 1 = (rest.length : Int) := by
      simp
    simp only [hsz]
    simpa using ih

/-- C4: enqueueing any list of orders that all classify to the same tier
into the empty queue, with no intervening front-insertion, and then
dequeuing them all, returns them in exactly their enqueue order. -/
theorem fifo_within_tier (xs : List Order)
    (h : (∀ o ∈ xs, o.CustomerRole = RoleVIPCustomer) ∨
         (∀ o ∈ xs, ¬ o.CustomerRole = RoleVIPCustomer)) :
    drainN (enqueueList NewPriorityQueue xs) xs.length = xs := by
  rcases enqueueList_fields xs NewPriorityQueue with ⟨hv, hr, hs⟩
  cases h with
  | inl hvip =>
    have hq : enqueueList NewPriorityQueue xs
        = { vipOrders := xs, regularOrders := [], size := (xs.length : Int) } := by
      refine ext_of_fields ?_ ?_ ?_
      · rw [hv]; simp [NewPriorityQueue, List.filter_eq_self]
        intro a ha; simpa using hvip a ha
      · rw [hr]; simp [NewPriorityQueue]
        intro a ha; simpa using hvip a ha
      · rw [hs]; simp [NewPriorityQueue]
    rw [hq]; exact drainN_vip xs
  | inr hreg =>
    have hq : enqueueList NewPriorityQueue xs
        = { vipOrders := [], regularOrders := xs, size := (xs.length : Int) } := by
      refine ext_of_fields ?_ ?_ ?_
      · rw [hv]; simp [NewPriorityQueue]
        intro a ha; simpa using hreg a ha
      · rw [hr]; simp [NewPriorityQueue, List.filter_eq_self]
        intro a ha; simpa using hreg a ha
      · rw [hs]; simp [NewPriorityQueue]
    rw [hq]; exact drainN_reg xs

/-- Second and third sample regular orders, for the FIFO witness. -/
def regSample2 : Order :=
  { ID := 3, Status := OrderStatusPending, AssignedCookUser := none,
    OrderedBy := 12, CustomerRole := RoleRegularCustomer }

/-- Sample regular order with an empty role string (still standard tier). -/
def regSample3 : Order :=
  { ID := 4, Status := OrderStatusServing, AssignedCookUser := none,
    OrderedBy := 13, CustomerRole := "" }

/-- Witness for C4: three standard-tier orders come back in enqueue order. -/
theorem fifo_within_tier_witness :
    drainN (enqueueList NewPriorityQueue [regSample, regSample2, regSample3]) 3
      = [regSample, regSample2, regSample3] :=
  fifo_within_tier [regSample, regSample2, regSample3] (Or.inr (by decide))

/-- C5: an order `d` inserted by `EnqueueAtFront` becomes, and stays, ahead
of every order that was already in its tier and of every same-tier order
enqueued normally afterward: after the front-insertion and any further
normal enqueues `zs`, `d`'s tier sequence is exactly `d` followed by the
old tier contents followed by the same-tier part of `zs` — so, `Dequeue`
taking tier heads in order, `d` is dequeued before all of them. -/
theorem enqueueFront_precedence (pq : PriorityQueue) (d : Order) (zs : List Order) :
    tierOf (enqueueList (pq.EnqueueAtFront (some d)).2 zs) d
      = d :: (tierOf pq d ++ zs.filter (fun z => sameTier d z)) := by
  rcases enqueueList_fields zs (pq.EnqueueAtFront (some d)).2 with ⟨hv, hr, _⟩
  by_cases hd : d.CustomerRole == RoleVIPCustomer
  · have hfil : zs.filter (fun z => sameTier d z)
        = zs.filter (fun z => z.CustomerRole == RoleVIPCustomer) := by
      apply List.filter_congr
      intro z _
      simp [sameTier, hd]
    rw [tierOf, if_pos hd, hv, tierOf, if_pos hd, hfil,
      PriorityQueue.EnqueueAtFront]
    simp [hd]
  · have hfil : zs.filter (fun z => sameTier d z)
        = zs.filter (fun z => !(z.CustomerRole == RoleVIPCustomer)) := by
      apply List.filter_congr
      intro z _
      simp [sameTier, Bool.eq_false_iff.mpr hd]
    rw [tierOf, if_neg hd, hr, tierOf, if_neg hd, hfil,
      PriorityQueue.EnqueueAtFront]
    simp [hd]

/-! Arbitrary interleavings of the queue's mutating operations, for the
conservation claim. -/

/-- One invocation of a mutating queue operation (the read-only operations
`Peek`, `Size`, `IsEmpty` return no new state). -/
inductive QueueOp where
  | enq (o : Option Order)
  | enqFront (o : Option Order)
  | deq
  deriving Repr

/-- The state after one operation. -/
def applyOp (pq : PriorityQueue) : QueueOp → PriorityQueue
  | .enq o => (pq.Enqueue o).2
  | .enqFront o => (pq.EnqueueAtFront o).2
  | .deq => (pq.Dequeue).2

/-- The state after a sequence of operations. -/
def runOps (pq : PriorityQueue) : List QueueOp → PriorityQueue
  | [] => pq
  | op :: rest => runOps (applyOp pq op) rest

/-- The contribution of one operation to the enqueue/dequeue balance:
`+1` for an enqueue or front-insert that succeeds (returns no error),
`-1` for a dequeue that returns an order, `0` otherwise. -/
def opBalance (pq : PriorityQueue) : QueueOp → Int
  | .enq o => if (pq.Enqueue o).1 = none then 1 else 0
  | .enqFront o => if (pq.EnqueueAtFront o).1 = none then 1 else 0
  | .deq => if ((pq.Dequeue).1.1).isSome then -1 else 0

/-- Number of successful enqueues minus number of successful dequeues along
a run starting from `pq`. -/
def opsBalance (pq : PriorityQueue) : List QueueOp → Int
  | [] => 0
  | op :: rest => opBalance pq op + opsBalance (applyOp pq op) rest

theorem applyOp_size_and_inv (pq : PriorityQueue) (op : QueueOp) (h : pq.sizeInv) :
    (applyOp pq op).size = pq.size + opBalance pq op ∧ (applyOp pq op).sizeInv := by
  cases op with
  | enq o =>
    refine ⟨?_, enqueue_preserves_sizeInv pq o h⟩
    cases o with
    | none => simp [applyOp, opBalance, PriorityQueue.Enqueue]
    | some x =>
      by_cases hx : x.CustomerRole == RoleVIPCustomer <;>
        simp [applyOp, opBalance, PriorityQueue.Enqueue, hx]
  | enqFront o =>
    refine ⟨?_, enqueueAtFront_preserves_sizeInv pq o h⟩
    cases o with
    | none => simp [applyOp, opBalance, PriorityQueue.EnqueueAtFront]
    | some x =>
      by_cases hx : x.CustomerRole == RoleVIPCustomer <;>
        simp [applyOp, opBalance, PriorityQueue.EnqueueAtFront, hx]
  | deq =>
    refine ⟨?_, dequeue_preserves_sizeInv pq h⟩
    unfold PriorityQueue.sizeInv at h
    by_cases hz : pq.size = 0
    · simp [applyOp, opBalance, PriorityQueue.Dequeue, hz]
    · cases hv : pq.vipOrders with
      | cons o rest =>
        simp [applyOp, opBalance, PriorityQueue.Dequeue, hz, hv]
        omega
      | nil =>
        cases hr : pq.regularOrders with
        | cons o rest =>
          simp [applyOp, opBalance, PriorityQueue.Dequeue, hz, hv, hr]
          omega
        | nil => exact absurd (by rw [h, hv, hr]; simp) hz

theorem runOps_size (ops : List QueueOp) (pq : PriorityQueue) (h : pq.sizeInv) :
    (runOps pq ops).Size = pq.Size + opsBalance pq ops := by
  induction ops generalizing pq with
  | nil => simp [runOps, opsBalance]
  | cons op rest ih =>
    rcases applyOp_size_and_inv pq op h with ⟨hsz, hinv⟩
    have := ih (applyOp pq op) hinv
    simp only [runOps, opsBalance, this]
    unfold PriorityQueue.Size at *
    omega

/-- C6: every mutating queue operation preserves the invariant that the
cached size counter equals the sum of the two tier lengths (the read-only
operations `Peek`/`Size`/`IsEmpty` return no new state), and consequently,
along any sequence of operations started from the fresh queue, `Size`
equals the number of successful enqueues (front-inserts included) minus the
number of successful dequeues. -/
theorem size_counter_conservation :
    NewPriorityQueue.sizeInv ∧
    (∀ (pq : PriorityQueue) (o : Option Order), pq.sizeInv → (pq.Enqueue o).2.sizeInv) ∧
    (∀ (pq : PriorityQueue) (o : Option Order), pq.sizeInv → (pq.EnqueueAtFront o).2.sizeInv) ∧
    (∀ (pq : PriorityQueue), pq.sizeInv → (pq.Dequeue).2.sizeInv) ∧
    (∀ ops, (runOps NewPriorityQueue ops).Size = opsBalance NewPriorityQueue ops) := by
  refine ⟨by decide, enqueue_preserves_sizeInv, enqueueAtFront_preserves_sizeInv,
    dequeue_preserves_sizeInv, ?_⟩
  intro ops
  have h := runOps_size ops NewPriorityQueue (by decide)
  simpa [NewPriorityQueue, PriorityQueue.Size] using h

/-- Witness for C6 at concrete inputs: the invariant survives an enqueue on
the concrete queue `qVipReg`, and a concrete run (enqueue, dequeue, dequeue
on empty, nil enqueue) balances out. -/
theorem size_counter_conservation_witness :
    (qVipReg.Enqueue (some regSample2)).2.sizeInv ∧
    (runOps NewPriorityQueue
        [QueueOp.enq (some vipSample), QueueOp.deq, QueueOp.deq,
         QueueOp.enq none]).Size
      = opsBalance NewPriorityQueue
        [QueueOp.enq (some vipSample), QueueOp.deq, QueueOp.deq,
         QueueOp.enq none] :=
  ⟨size_counter_conservation.2.1 qVipReg (some regSample2) (by decide),
   size_counter_conservation.2.2.2.2 _⟩

/-! In-memory repositories (src/internal/infrastructure/memory).  A Go map
`map[int]*T` whose keys are the stored records' ID fields is modelled as
the list of stored records, looked up by ID; the repositories mutate the
stored record in place through the pointer, modelled as an update of the
stored value. -/

/-- Lookup in `memory.UserRepository.users` (`GetByID`, user_repository.go
lines 46-56): the stored user, or a "user not found" error modelled as
`none`. -/
def lookupUser (users : List User) (id : Int) : Option User :=
  users.find? (fun u => u.ID == id)

/-- `memory.UserRepository.SoftDelete` (user_repository.go lines 109-122):
sets `DeletedAt` to the current instant on the stored user; fails when the
user is absent. -/
def softDeleteUser (users : List User) (id : Int) (now : Nat) :
    Except Unit (List User) :=
  match lookupUser users id with
  | none => .error ()
  | some _ =>
    .ok (users.map (fun u => if u.ID == id then { u with DeletedAt := some now } else u))

/-- Lookup in `memory.OrderRepository.orders`. -/
def lookupOrder (orders : List Order) (id : Int) : Option Order :=
  orders.find? (fun o => o.ID == id)

/-- `memory.OrderRepository.AssignCook` (order_repository.go lines
162-174): sets `AssignedCookUser` on the stored order; "order not found"
when absent. -/
def assignCook (orders : List Order) (orderID cookID : Int) :
    Except Unit (List Order) :=
  match lookupOrder orders orderID with
  | none => .error ()
  | some _ =>
    .ok (orders.map (fun o =>
      if o.ID == orderID then { o with AssignedCookUser := some cookID } else o))

/-- `memory.OrderRepository.UnassignCook` (order_repository.go lines
178-190): clears `AssignedCookUser` on the stored order. -/
def unassignCook (orders : List Order) (orderID : Int) :
    Except Unit (List Order) :=
  match lookupOrder orders orderID with
  | none => .error ()
  | some _ =>
    .ok (orders.map (fun o =>
      if o.ID == orderID then { o with AssignedCookUser := none } else o))

/-- `memory.OrderRepository.UpdateStatus` (order_repository.go lines
194-206): sets `Status` on the stored order. -/
def updateStatus (orders : List Order) (orderID : Int) (st : OrderStatus) :
    Except Unit (List Order) :=
  match lookupOrder orders orderID with
  | none => .error ()
  | some _ =>
    .ok (orders.map (fun o =>
      if o.ID == orderID then { o with Status := st } else o))

/-- `memory.OrderRepository.GetByCookID` (order_repository.go lines
131-143): all stored orders whose `AssignedCookUser` equals the cook
(the Go map's iteration order is abstracted as the storage list order);
this implementation never returns an error. -/
def getByCookID (orders : List Order) (cookID : Int) : List Order :=
  orders.filter (fun o => o.AssignedCookUser == some cookID)

/-- The state the cook service operates on when wired to the in-memory
repositories and the priority queue: the stored users, the stored orders
and the queue. -/
structure ServiceState where
  users : List User
  orders : List Order
  queue : PriorityQueue
  deriving Repr, DecidableEq

/-- The distinct failure exits of `cookService.AcceptOrder`
(cook_service.go lines 229-272), in source order.  `nilDereference` marks
the path where `Dequeue` returns a nil order with a nil error: the Go code
then dereferences the nil pointer (`order.ID`, line 254) and crashes. -/
inductive AcceptError where
  | cookNotFound
  | notACook
  | cookDeleted
  | queueEmpty
  | dequeueFailed
  | nilDereference
  | assignFailed
  | updateStatusFailed
  deriving Repr, DecidableEq

instance {e a : Type} [DecidableEq e] [DecidableEq a] : DecidableEq (Except e a)
  | .error x, .error y =>
    if h : x = y then .isTrue (by rw [h]) else .isFalse (fun hco => h (by cases hco; rfl))
  | .ok x, .ok y =>
    if h : x = y then .isTrue (by rw [h]) else .isFalse (fun hco => h (by cases hco; rfl))
  | .error x, .ok y => .isFalse (fun hco => by cases hco)
  | .ok x, .error y => .isFalse (fun hco => by cases hco)

/-- `cookService.AcceptOrder` (cook_service.go lines 229-272) wired to the
in-memory repositories.  The enqueued `*Order` and the repository's stored
`*Order` are the same pointer in the running system, so the returned order
reflects the repository updates; the model returns the repository's stored
value after the updates.  The background `processOrder` goroutine (line
269) starts after the return and is outside the modelled state. -/
def AcceptOrder (s : ServiceState) (cookID : Int) :
    Except AcceptError Order × ServiceState :=
  match lookupUser s.users cookID with
  | none => (.error .cookNotFound, s)
  | some cook =>
    if !cook.IsCook then (.error .notACook, s)
    else if cook.IsDeleted then (.error .cookDeleted, s)
    else
      match s.queue.Dequeue with
      | ((_, some QueueError.emptyQueue), q2) => (.error .queueEmpty, { s with queue := q2 })
      | ((_, some QueueError.nilOrder), q2) => (.error .dequeueFailed, { s with queue := q2 })
      | ((none, none), q2) => (.error .nilDereference, { s with queue := q2 })
      | ((some o, none), q2) =>
        match assignCook s.orders o.ID cookID with
        | .error _ =>
          (.error .assignFailed, { s with queue := (q2.EnqueueAtFront (some o)).2 })
        | .ok orders1 =>
          match updateStatus orders1 o.ID OrderStatusServing with
          | .error _ => (.error .updateStatusFailed, { s with orders := orders1, queue := q2 })
          | .ok orders2 =>
            (.ok ((lookupOrder orders2 o.ID).getD o), { s with orders := orders2, queue := q2 })

/-- The distinct failure exits of `cookService.RemoveCook` (cook_service.go
lines 106-167). -/
inductive RemoveError where
  | cookNotFound
  | notACook
  | alreadyDeleted
  | softDeleteFailed
  deriving Repr, DecidableEq

/-- Loop body of `cookService.RemoveCook` (lines 135-157): a PENDING or
SERVING order assigned to the removed cook is reset to PENDING, unassigned
and re-enqueued at the front of its tier; each repository error is logged
and skips to the next order (`continue`).  The enqueued `*Order` is the
repository's stored pointer, so its value is the one after the two
updates. -/
def requeueOrder (s : ServiceState) (o : Order) : ServiceState :=
  if o.Status == OrderStatusPending || o.Status == OrderStatusServing then
    match updateStatus s.orders o.ID OrderStatusPending with
    | .error _ => s
    | .ok os1 =>
      match unassignCook os1 o.ID with
      | .error _ => { s with orders := os1 }
      | .ok os2 =>
        let o2 := (lookupOrder os2 o.ID).getD o
        { s with orders := os2, queue := (s.queue.EnqueueAtFront (some o2)).2 }
  else s

/-- `cookService.RemoveCook` (cook_service.go lines 106-167) wired to the
in-memory repositories.  `stopWorker` (line 125) only signals the cook's
polling goroutine and touches none of the modelled state; the in-memory
`GetByCookID` never fails, so that error branch (lines 129-132) has no
counterpart.  `now` is the instant `SoftDelete` stamps. -/
def RemoveCook (s : ServiceState) (cookID : Int) (now : Nat) :
    Except RemoveError Unit × ServiceState :=
  match lookupUser s.users cookID with
  | none => (.error .cookNotFound, s)
  | some cook =>
    if !cook.IsCook then (.error .notACook, s)
    else if cook.IsDeleted then (.error .alreadyDeleted, s)
    else
      let assigned := getByCookID s.orders cookID
      let s1 := assigned.foldl requeueOrder s
      match softDeleteUser s1.users cookID now with
      | .error _ => (.error .softDeleteFailed, s1)
      | .ok us => (.ok (), { s1 with users := us })

/-! Lemmas about the repository update operations. -/

theorem lookupOrder_map_update (os : List Order) (id : Int) (f : Order → Order)
    (y : Order) (hy : lookupOrder os id = some y) (hid : (f y).ID = y.ID) :
    lookupOrder (os.map (fun o => if o.ID == id then f o else o)) id = some (f y) := by
  induction os with
  | nil => simp [lookupOrder] at hy
  | cons a rest ih =>
    simp only [lookupOrder, List.map_cons] at hy ⊢
    by_cases ha : (a.ID == id) = true
    · rw [List.find?_cons_of_pos (p := fun o : Order => o.ID == id) _ ha] at hy
      injection hy with hy
      subst hy
      have hfa : ((f a).ID == id) = true := by
        rw [beq_iff_eq] at ha ⊢
        rw [hid, ha]
      rw [if_pos ha, List.find?_cons_of_pos (p := fun o : Order => o.ID == id) _ hfa]
    · rw [List.find?_cons_of_neg (p := fun o : Order => o.ID == id) _ ha] at hy
      rw [if_neg ha, List.find?_cons_of_neg (p := fun o : Order => o.ID == id) _ ha]
      exact ih hy

theorem assignCook_ok {os os1 : List Order} {id cid : Int}
    (h : assignCook os id cid = Except.ok os1) :
    ∃ y, lookupOrder os id = some y ∧
      os1 = os.map (fun o => if o.ID == id then { o with AssignedCookUser := some cid } else o) := by
  unfold assignCook at h
  cases hl : lookupOrder os id with
  | none => rw [hl] at h; cases h
  | some y =>
    rw [hl] at h
    injection h with h
    exact ⟨y, rfl, h.symm⟩

theorem updateStatus_ok {os os2 : List Order} {id : Int} {st : OrderStatus}
    (h : updateStatus os id st = Except.ok os2) :
    ∃ y, lookupOrder os id = some y ∧
      os2 = os.map (fun o => if o.ID == id then { o with Status := st } else o) := by
  unfold updateStatus at h
  cases hl : lookupOrder os id with
  | none => rw [hl] at h; cases h
  | some y =>
    rw [hl] at h
    injection h with h
    exact ⟨y, rfl, h.symm⟩

theorem unassignCook_ok {os os2 : List Order} {id : Int}
    (h : unassignCook os id = Except.ok os2) :
    ∃ y, lookupOrder os id = some y ∧
      os2 = os.map (fun o => if o.ID == id then { o with AssignedCookUser := none } else o) := by
  unfold unassignCook at h
  cases hl : lookupOrder os id with
  | none => rw [hl] at h; cases h
  | some y =>
    rw [hl] at h
    injection h with h
    exact ⟨y, rfl, h.symm⟩

/-- Re-inserting an order whose role matches `y`'s routes it to the head of
`y`'s tier. -/
theorem tierOf_enqueueAtFront (q : PriorityQueue) (x y : Order)
    (hrole : x.CustomerRole = y.CustomerRole) :
    tierOf (q.EnqueueAtFront (some x)).2 y = x :: tierOf q y := by
  by_cases h : (y.CustomerRole == RoleVIPCustomer) = true <;>
    simp [tierOf, PriorityQueue.EnqueueAtFront, hrole, h]

/-- C7: `AcceptOrder` fails with the cook-not-found error when no such user
exists and with the cook-deleted error when the cook is soft-deleted, in
both cases leaving the whole state (queue included) untouched; on a
consistent empty queue it fails with the queue-empty error, also leaving
the state untouched; and whenever it succeeds, the returned order has
status SERVING and the cook assigned.  (Spec names: UnknownWorker,
WorkerInactive, QueueEmpty, state=InProgress.) -/
theorem acceptOrder_error_taxonomy_and_success (s : ServiceState) (cookID : Int) :
    (lookupUser s.users cookID = none →
      AcceptOrder s cookID = (.error AcceptError.cookNotFound, s)) ∧
    (∀ cook, lookupUser s.users cookID = some cook → cook.IsCook = true →
      cook.IsDeleted = true →
      AcceptOrder s cookID = (.error AcceptError.cookDeleted, s)) ∧
    (∀ cook, lookupUser s.users cookID = some cook → cook.IsCook = true →
      cook.IsDeleted = false → s.queue.sizeInv →
      s.queue.vipOrders = [] → s.queue.regularOrders = [] →
      AcceptOrder s cookID = (.error AcceptError.queueEmpty, s)) ∧
    (∀ o2, (AcceptOrder s cookID).1 = .ok o2 →
      o2.Status = OrderStatusServing ∧ o2.AssignedCookUser = some cookID) := by
  refine ⟨?_, ?_, ?_, ?_⟩
  · intro hu
    simp [AcceptOrder, hu]
  · intro cook hu hic hid
    simp [AcceptOrder, hu, hic, hid]
  · intro cook hu hic hid hinv hv hr
    have hz : s.queue.size = 0 := by
      unfold PriorityQueue.sizeInv at hinv
      rw [hinv, hv, hr]; simp
    have hdq : s.queue.Dequeue = ((none, some QueueError.emptyQueue), s.queue) := by
      simp [PriorityQueue.Dequeue, hz]
    simp [AcceptOrder, hu, hic, hid, hdq]
  · intro o2 h
    unfold AcceptOrder at h
    cases hu : lookupUser s.users cookID with
    | none => rw [hu] at h; simp at h
    | some cook =>
      rw [hu] at h
      by_cases hic : cook.IsCook = true
      · by_cases hid : cook.IsDeleted = true
        · simp [hic, hid] at h
        · simp only [hic, Bool.not_true, Bool.false_eq_true, if_false,
            Bool.not_eq_true] at h
          rw [Bool.not_eq_true] at hid
          simp only [hid, Bool.false_eq_true, if_false] at h
          rcases hdq : s.queue.Dequeue with ⟨⟨oo, eo⟩, q2⟩
          rw [hdq] at h
          cases eo with
          | some e => cases e <;> simp at h
          | none =>
            cases oo with
            | none => simp at h
            | some o =>
              simp only at h
              cases ha : assignCook s.orders o.ID cookID with
              | error e => rw [ha] at h; simp at h
              | ok orders1 =>
                rw [ha] at h
                simp only at h
                cases hup : updateStatus orders1 o.ID OrderStatusServing with
                | error e => rw [hup] at h; simp at h
                | ok orders2 =>
                  rw [hup] at h
                  simp only [Except.ok.injEq] at h
                  rcases assignCook_ok ha with ⟨y, hy, h1⟩
                  have hly : lookupOrder orders1 o.ID
                      = some { y with AssignedCookUser := some cookID } := by
                    rw [h1]
                    exact lookupOrder_map_update _ _ _ _ hy rfl
                  have hly2 : lookupOrder orders2 o.ID
                      = some { { y with AssignedCookUser := some cookID } with
                               Status := OrderStatusServing } := by
                    rcases updateStatus_ok hup with ⟨y1, hy1, h2⟩
                    rw [h2]
                    exact lookupOrder_map_update _ _ _ _ hly rfl
                  rw [hly2] at h
                  simp only [Option.getD_some] at h
                  rw [← h]
                  exact ⟨rfl, rfl⟩
      · exfalso
        rw [Bool.not_eq_true] at hic
        simp [hic] at h

/-- A sample active cook. -/
def cookSample : User :=
  { ID := 7, Name := "Bob", Role := RoleCook, DeletedAt := none }

/-- A sample soft-deleted cook. -/
def cookGone : User :=
  { ID := 8, Name := "Eve", Role := RoleCook, DeletedAt := some 5 }

/-- Service state with both cooks, one stored order, that order enqueued. -/
def sAccept : ServiceState :=
  { users := [cookSample, cookGone], orders := [regSample],
    queue := (NewPriorityQueue.Enqueue (some regSample)).2 }

/-- Service state with one active cook and an empty queue. -/
def sEmptyQ : ServiceState :=
  { users := [cookSample], orders := [], queue := NewPriorityQueue }

/-- The value `AcceptOrder` hands back for `regSample` accepted by cook 7. -/
def acceptedVal : Order :=
  { ID := 2, Status := OrderStatusServing, AssignedCookUser := some 7,
    OrderedBy := 11, CustomerRole := RoleRegularCustomer }

/-- Witness for C7 at concrete states: unknown cook, soft-deleted cook,
empty queue, and a successful accept. -/
theorem acceptOrder_error_taxonomy_and_success_witness :
    AcceptOrder sAccept 99 = (.error AcceptError.cookNotFound, sAccept) ∧
    AcceptOrder sAccept 8 = (.error AcceptError.cookDeleted, sAccept) ∧
    AcceptOrder sEmptyQ 7 = (.error AcceptError.queueEmpty, sEmptyQ) ∧
    (acceptedVal.Status = OrderStatusServing ∧
      acceptedVal.AssignedCookUser = some 7) :=
  ⟨(acceptOrder_error_taxonomy_and_success sAccept 99).1 (by decide),
   (acceptOrder_error_taxonomy_and_success sAccept 8).2.1 cookGone
     (by decide) (by decide) (by decide),
   (acceptOrder_error_taxonomy_and_success sEmptyQ 7).2.2.1 cookSample
     (by decide) (by decide) (by decide) (by decide) (by decide) (by decide),
   (acceptOrder_error_taxonomy_and_success sAccept 7).2.2.2 acceptedVal
     (by decide)⟩

/-- The value a held order is reset to by `RemoveCook`: status PENDING,
no assigned cook. -/
def resetOrder (X : Order) : Order :=
  { X with Status := OrderStatusPending, AssignedCookUser := none }

/-- C3: when cook `w` is active and holds exactly the SERVING order `X`,
`RemoveCook w` succeeds, leaves `X` stored as PENDING with no assigned
cook, and places that reset order at the front of `X`'s tier — so it is
the next order `Dequeue` hands out of that tier (no concurrent
front-insertions in this single-operation model). -/
theorem removeCook_requeues_held_order (s : ServiceState) (w : Int) (now : Nat)
    (cook : User) (X : Order)
    (hu : lookupUser s.users w = some cook)
    (hic : cook.IsCook = true) (hid : cook.IsDeleted = false)
    (hassigned : getByCookID s.orders w = [X])
    (hlk : lookupOrder s.orders X.ID = some X)
    (hst : X.Status = OrderStatusServing) :
    (RemoveCook s w now).1 = .ok () ∧
    lookupOrder (RemoveCook s w now).2.orders X.ID = some (resetOrder X) ∧
    tierOf (RemoveCook s w now).2.queue X
      = resetOrder X :: tierOf s.queue X := by
  have hguard : (X.Status == OrderStatusPending || X.Status == OrderStatusServing)
      = true := by
    rw [hst]; decide
  have h1 : updateStatus s.orders X.ID OrderStatusPending
      = .ok (s.orders.map (fun o =>
          if o.ID == X.ID then { o with Status := OrderStatusPending } else o)) := by
    unfold updateStatus; rw [hlk]
  have hly1 : lookupOrder (s.orders.map (fun o =>
        if o.ID == X.ID then { o with Status := OrderStatusPending } else o)) X.ID
      = some { X with Status := OrderStatusPending } :=
    lookupOrder_map_update _ _ _ _ hlk rfl
  have h2 : unassignCook (s.orders.map (fun o =>
        if o.ID == X.ID then { o with Status := OrderStatusPending } else o)) X.ID
      = .ok ((s.orders.map (fun o =>
          if o.ID == X.ID then { o with Status := OrderStatusPending } else o)).map
            (fun o => if o.ID == X.ID then { o with AssignedCookUser := none } else o)) := by
    unfold unassignCook; rw [hly1]
  have hly2 : lookupOrder ((s.orders.map (fun o =>
        if o.ID == X.ID then { o with Status := OrderStatusPending } else o)).map
          (fun o => if o.ID == X.ID then { o with AssignedCookUser := none } else o)) X.ID
      = some (resetOrder X) :=
    lookupOrder_map_update _ _ _ _ hly1 rfl
  have hreq : requeueOrder s X
      = { s with
          orders := (s.orders.map (fun o =>
            if o.ID == X.ID then { o with Status := OrderStatusPending } else o)).map
              (fun o => if o.ID == X.ID then { o with AssignedCookUser := none } else o),
          queue := (s.queue.EnqueueAtFront (some (resetOrder X))).2 } := by
    unfold requeueOrder
    rw [if_pos hguard]
    simp only [h1, h2, hly2, Option.getD_some]
  have hsd : softDeleteUser s.users w now
      = .ok (s.users.map (fun u =>
          if u.ID == w then { u with DeletedAt := some now } else u)) := by
    unfold softDeleteUser; rw [hu]
  have hrc : RemoveCook s w now
      = (.ok (),
          { users := s.users.map (fun u =>
                if u.ID == w then { u with DeletedAt := some now } else u),
            orders := (s.orders.map (fun o =>
                if o.ID == X.ID then { o with Status := OrderStatusPending } else o)).map
                  (fun o => if o.ID == X.ID then { o with AssignedCookUser := none } else o),
            queue := (s.queue.EnqueueAtFront (some (resetOrder X))).2 }) := by
    unfold RemoveCook
    simp only [hu, hic, hid, Bool.not_true, Bool.false_eq_true, if_false, hassigned,
      List.foldl_cons, List.foldl_nil, hreq, hsd]
  refine ⟨by rw [hrc], ?_, ?_⟩
  · rw [hrc]
    exact hly2
  · rw [hrc]
    exact tierOf_enqueueAtFront s.queue (resetOrder X) X rfl

/-- The order cook 7 is holding in the C3 witness state. -/
def servingX : Order :=
  { ID := 9, Status := OrderStatusServing, AssignedCookUser := some 7,
    OrderedBy := 10, CustomerRole := RoleVIPCustomer }

/-- Service state where cook 7 holds `servingX` and the queue is empty. -/
def sRemove : ServiceState :=
  { users := [cookSample], orders := [servingX], queue := NewPriorityQueue }

/-- Witness for C3 at a concrete state: removing cook 7 resets `servingX`
to PENDING/unassigned and puts it at the head of the VIP tier. -/
theorem removeCook_requeues_held_order_witness :
    (RemoveCook sRemove 7 3).1 = .ok () ∧
    lookupOrder (RemoveCook sRemove 7 3).2.orders servingX.ID
      = some (resetOrder servingX) ∧
    tierOf (RemoveCook sRemove 7 3).2.queue servingX
      = resetOrder servingX :: tierOf sRemove.queue servingX :=
  removeCook_requeues_held_order sRemove 7 3 cookSample servingX
    (by decide) (by decide) (by decide) (by decide) (by decide) (by decide)

/-- The queue effect of `cookService.AcceptOrder`'s dequeue-and-persist
phase (cook_service.go lines 244-263), with the results of the two
repository persist calls — `AssignCook` (line 254) and `UpdateStatus`
(line 261) — abstracted as boolean outcomes: the service is written
against the `domain.OrderRepository` interface, each of whose operations
returns an error (the PostgreSQL implementation can fail either call
independently).  Control flow is verbatim from the source: a failed
`AssignCook` triggers the compensating `EnqueueAtFront` (line 256); a
failed `UpdateStatus` returns the error with no compensation (line 262). -/
def acceptOrderPersistFlow (pq : PriorityQueue) (assignOk updateOk : Bool) :
    Except AcceptError Order × PriorityQueue :=
  match pq.Dequeue with
  | ((_, some QueueError.emptyQueue), q2) => (.error .queueEmpty, q2)
  | ((_, some QueueError.nilOrder), q2) => (.error .dequeueFailed, q2)
  | ((none, none), q2) => (.error .nilDereference, q2)
  | ((some o, none), q2) =>
    if assignOk = false then
      (.error .assignFailed, (q2.EnqueueAtFront (some o)).2)
    else if updateOk = false then
      (.error .updateStatusFailed, q2)
    else
      (.ok o, q2)

/-- A queue holding exactly one standard order. -/
def qRegOne : PriorityQueue :=
  (NewPriorityQueue.Enqueue (some regSample)).2

/-- Counterexample to C2 as stated: `regSample` is dequeued, the first
persist step (cook assignment) succeeds, the second persist step (status
update) fails — a step of the persist has failed, the error is returned to
the caller, but the item is not re-inserted: both tiers of the resulting
queue are empty, so the order is lost from the queue. -/
theorem acceptOrder_update_failure_loses_item :
    (qRegOne.Dequeue).1 = (some regSample, none) ∧
    (acceptOrderPersistFlow qRegOne true false).1
      = .error AcceptError.updateStatusFailed ∧
    (acceptOrderPersistFlow qRegOne true false).2.vipOrders = [] ∧
    (acceptOrderPersistFlow qRegOne true false).2.regularOrders = [] := by
  decide

/-- C2 amended: when the *cook-assignment* persist step fails, the dequeued
item is re-inserted at the front of its tier and the error is surfaced;
when the assignment succeeds but the subsequent status-update persist step
fails, the error is surfaced without re-inserting the item (it leaves the
queue). -/
theorem acceptOrder_requeues_only_on_assign_failure (pq q2 : PriorityQueue)
    (o : Order) (updateOk : Bool)
    (hdq : pq.Dequeue = ((some o, none), q2)) :
    (acceptOrderPersistFlow pq false updateOk
        = (.error AcceptError.assignFailed, (q2.EnqueueAtFront (some o)).2) ∧
      tierOf (acceptOrderPersistFlow pq false updateOk).2 o = o :: tierOf q2 o) ∧
    acceptOrderPersistFlow pq true false
      = (.error AcceptError.updateStatusFailed, q2) := by
  refine ⟨⟨?_, ?_⟩, ?_⟩
  · simp [acceptOrderPersistFlow, hdq]
  · simp only [acceptOrderPersistFlow, hdq]
    exact tierOf_enqueueAtFront q2 o o rfl
  · simp [acceptOrderPersistFlow, hdq]

/-- Witness for the amended C2 at the concrete one-order queue. -/
theorem acceptOrder_requeues_only_on_assign_failure_witness :
    (acceptOrderPersistFlow qRegOne false true
        = (.error AcceptError.assignFailed,
            (NewPriorityQueue.EnqueueAtFront (some regSample)).2) ∧
      tierOf (acceptOrderPersistFlow qRegOne false true).2 regSample
        = regSample :: tierOf NewPriorityQueue regSample) ∧
    acceptOrderPersistFlow qRegOne true false
      = (.error AcceptError.updateStatusFailed, NewPriorityQueue) :=
  acceptOrder_requeues_only_on_assign_failure qRegOne NewPriorityQueue regSample
    true (by decide)

end Kiosk
